import Mathlib

/-!
Verification of the Learning Progression Graph Engine of the CogniMap
application. The definitions below are a shallow embedding of the
TypeScript source (`App.tsx`, `types.ts`, `services/geminiService.ts`):
the session state, the status recomputation performed by
`handleModuleComplete`, the bootstrap of node statuses, the deep-study
sub-graph materialization and the roll-up of a completed sub-graph into
its parent milestone.
-/

namespace CogniMap

/-- Status enumeration `NodeStatus` from `types.ts`. -/
inductive NodeStatus where
  | LOCKED
  | AVAILABLE
  | COMPLETED
  | ACTIVE
deriving DecidableEq, Repr

/-- Edge record `LearningLink` from `types.ts`; the engine only ever reads the ids of
the endpoints (the `typeof l.target === 'object' ? l.target.id : l.target`
idiom in `App.tsx`), so endpoints are embedded as ids. -/
structure LearningLink where
  source : String
  target : String
deriving DecidableEq, Repr

/-- Term record `GlossaryTerm` from `types.ts`. -/
structure GlossaryTerm where
  term : String
  definition : String
deriving DecidableEq, Repr

mutual
/-- Node record `LearningNode` from `types.ts` (presentation-only simulation
fields omitted); a node may own a nested `LearningGraph`. -/
inductive LearningNode where
  | mk (id : String) (title : String) (description : String)
       (dependencies : List String) (status : NodeStatus)
       (subGraph : Option LearningGraph)
/-- Graph record `LearningGraph` from `types.ts`. -/
inductive LearningGraph where
  | mk (nodes : List LearningNode) (links : List LearningLink)
       (glossary : List GlossaryTerm)
end

def LearningNode.id : LearningNode → String
  | .mk i _ _ _ _ _ => i

def LearningNode.title : LearningNode → String
  | .mk _ t _ _ _ _ => t

def LearningNode.description : LearningNode → String
  | .mk _ _ d _ _ _ => d

def LearningNode.dependencies : LearningNode → List String
  | .mk _ _ _ d _ _ => d

def LearningNode.status : LearningNode → NodeStatus
  | .mk _ _ _ _ s _ => s

def LearningNode.subGraph : LearningNode → Option LearningGraph
  | .mk _ _ _ _ _ g => g

/-- The `{ ...node, status: st }` record spread of the source. -/
def LearningNode.withStatus : LearningNode → NodeStatus → LearningNode
  | .mk i t d dep _ g, s => .mk i t d dep s g

/-- The `{ ...node, id, status }` spread used when a sub-graph's nodes are
prefixed during materialization (`handleNodeClick`). -/
def LearningNode.withIdStatus : LearningNode → String → NodeStatus → LearningNode
  | .mk _ t d dep _ g, i, s => .mk i t d dep s g

/-- The `{ ...node, subGraph }` spread of the source. -/
def LearningNode.withSubGraph : LearningNode → Option LearningGraph → LearningNode
  | .mk i t d dep s _, g => .mk i t d dep s g

def LearningGraph.nodes : LearningGraph → List LearningNode
  | .mk n _ _ => n

def LearningGraph.links : LearningGraph → List LearningLink
  | .mk _ l _ => l

def LearningGraph.glossary : LearningGraph → List GlossaryTerm
  | .mk _ _ g => g

/-- The `{ ...graph, nodes }` spread of the source. -/
def LearningGraph.withNodes : LearningGraph → List LearningNode → LearningGraph
  | .mk _ l g, n => .mk n l g

/-- The `{ ...n, subGraph: { ...n.subGraph!, nodes } }` spread in
`handleModuleComplete` (a missing sub-graph spreads as an empty one). -/
def LearningNode.withSubGraphNodes (n : LearningNode) (ns : List LearningNode) : LearningNode :=
  n.withSubGraph (some ((n.subGraph.getD (LearningGraph.mk [] [] [])).withNodes ns))

/-- Engine-relevant fields of `Session` from `types.ts`. -/
structure Session where
  graphData : LearningGraph
  completedNodeIds : List String
  currentSubGraphId : Option String

/-- View selection `currentGraphData` of `App.tsx` (lines 133-140): the sub-graph of
the drilled-down node when a deep-study view is active, the root graph
otherwise. -/
def currentGraphData (s : Session) : LearningGraph :=
  match s.currentSubGraphId with
  | none => s.graphData
  | some pid =>
    match s.graphData.nodes.find? (fun n => n.id == pid) with
    | none => s.graphData
    | some parent => parent.subGraph.getD s.graphData

/-- The `links.filter(...).map(...)` computation of parents (incoming-edge
sources) of a node inside `handleModuleComplete`. -/
def parentsOf (links : List LearningLink) (nid : String) : List String :=
  (links.filter (fun l => l.target == nid)).map (fun l => l.source)

/-- The `parents.every(p => newCompletedSet.has(p))` test of `handleModuleComplete`. -/
def parentsMet (links : List LearningLink) (C : List String) (nid : String) : Bool :=
  (parentsOf links nid).all (fun p => C.contains p)

/-- The body of the `currentGraphData.nodes.map(...)` status recomputation in
`handleModuleComplete` (App.tsx lines 352-366): a node in the completed set
becomes `COMPLETED`; otherwise, when all its parents are completed it becomes
`AVAILABLE`; otherwise it keeps its previous status. -/
def resolveNode (links : List LearningLink) (newC : List String) (node : LearningNode) : LearningNode :=
  if newC.contains node.id then node.withStatus .COMPLETED
  else if parentsMet links newC node.id && !(newC.contains node.id) then
    node.withStatus .AVAILABLE
  else node

/-- The full `updatedNodes` list of `handleModuleComplete`. -/
def recomputeNodes (g : LearningGraph) (newC : List String) : List LearningNode :=
  g.nodes.map (resolveNode g.links newC)

/-- The `nextNodeToOpen` output of `handleModuleComplete`: the first node
captured while newly unlocking (previous status `LOCKED`, parents now met),
else the first recomputed node that is `AVAILABLE` and not completed. -/
def nextNodeToOpen (s : Session) (selectedNodeId : String) : Option LearningNode :=
  let cur := currentGraphData s
  let newC := s.completedNodeIds ++ [selectedNodeId]
  match cur.nodes.find? (fun node =>
      !(newC.contains node.id) && parentsMet cur.links newC node.id
        && node.status == NodeStatus.LOCKED) with
  | some n => some n
  | none =>
    (recomputeNodes cur newC).find? (fun n =>
      n.status == NodeStatus.AVAILABLE && !(newC.contains n.id))

/-- The session update performed by `handleModuleComplete`
(App.tsx lines 345-399): the selected id is appended to the completed list;
the graph in view is re-resolved; in a sub-graph view the recomputed nodes
are written back into the parent node, and when every sub-graph node is
`COMPLETED` the parent id is also appended to the completed list. -/
def handleModuleComplete (s : Session) (selectedNodeId : String) : Session :=
  let cur := currentGraphData s
  let newCompletedList := s.completedNodeIds ++ [selectedNodeId]
  let updatedNodes := recomputeNodes cur newCompletedList
  match s.currentSubGraphId with
  | some pid =>
    let parentNodes := s.graphData.nodes.map (fun n =>
      if n.id == pid then n.withSubGraphNodes updatedNodes else n)
    let allSubComplete := updatedNodes.all (fun n => n.status == NodeStatus.COMPLETED)
    { s with
      completedNodeIds :=
        if allSubComplete then newCompletedList ++ [pid] else newCompletedList,
      graphData := s.graphData.withNodes parentNodes }
  | none =>
    { s with
      completedNodeIds := newCompletedList,
      graphData := s.graphData.withNodes updatedNodes }

/-- The `nodes.map((n, i) => ({...n, status: i===0 ? AVAILABLE : LOCKED}))`
bootstrap on the "Start Learning" action (App.tsx line 555). -/
def bootstrapStatuses (nodes : List LearningNode) : List LearningNode :=
  nodes.mapIdx (fun i n =>
    n.withStatus (if i == 0 then NodeStatus.AVAILABLE else NodeStatus.LOCKED))

/-- The session update of the "Start Learning" button (App.tsx line 555). -/
def startLearning (s : Session) : Session :=
  { s with graphData := s.graphData.withNodes (bootstrapStatuses s.graphData.nodes) }

/-- The id-prefixing and status assignment applied to a freshly generated
sub-graph in `handleNodeClick` (App.tsx lines 307-315): every node id and
link endpoint is prefixed with the parent id, the first node is forced
`AVAILABLE` and every other node `LOCKED`; the `dependencies` arrays are
left untouched by the source. -/
def prefixSubGraph (parentId : String) (g : LearningGraph) : LearningGraph :=
  LearningGraph.mk
    (g.nodes.mapIdx (fun i n =>
      n.withIdStatus (parentId ++ "-sub-" ++ n.id)
        (if i == 0 then NodeStatus.AVAILABLE else NodeStatus.LOCKED)))
    (g.links.map (fun l =>
      LearningLink.mk (parentId ++ "-sub-" ++ l.source) (parentId ++ "-sub-" ++ l.target)))
    g.glossary

/-- Sub-graph materialization on first drill-down (`handleNodeClick`,
App.tsx lines 306-322): the generated graph is prefixed, stored on the
clicked node, and the view enters the sub-graph. -/
def materializeSubGraph (s : Session) (nodeId : String) (generated : LearningGraph) : Session :=
  let subGraph := prefixSubGraph nodeId generated
  let updatedNodes := s.graphData.nodes.map (fun n =>
    if n.id == nodeId then n.withSubGraph (some subGraph) else n)
  { s with
    graphData := s.graphData.withNodes updatedNodes,
    currentSubGraphId := some nodeId }

/-- Entering an already materialized sub-graph (`handleNodeClick`,
App.tsx line 300). -/
def enterSubGraph (s : Session) (nodeId : String) : Session :=
  { s with currentSubGraphId := some nodeId }

/-- The "Back to Roadmap" action (App.tsx line 616). -/
def exitSubGraph (s : Session) : Session :=
  { s with currentSubGraphId := none }

/-- The "Remaining" count shown in the sidebar (App.tsx line 600):
root node count minus completed-list length, as (possibly negative)
integer arithmetic. -/
def remainingCount (s : Session) : Int :=
  (s.graphData.nodes.length : Int) - (s.completedNodeIds.length : Int)

/-- The status of the node with a given id in a graph. -/
def statusOf (g : LearningGraph) (nid : String) : Option NodeStatus :=
  (g.nodes.find? (fun n => n.id == nid)).map LearningNode.status

/-- The pure Status Resolver as the spec words it (section 4.1):
`Completed` when the id is in the completed set, else `Available` when every
parent is completed, else `Locked`. Used to compare the source's
recomputation against the spec's contract. -/
def specResolveStatus (links : List LearningLink) (C : List String) (n : LearningNode) : NodeStatus :=
  if C.contains n.id then .COMPLETED
  else if parentsMet links C n.id then .AVAILABLE
  else .LOCKED

/-- A graph's stored statuses agree with the spec's Status Resolver for the
completed set `C` (spec invariant 4). -/
def statusConsistent (g : LearningGraph) (C : List String) : Prop :=
  ∀ n ∈ g.nodes, n.status = specResolveStatus g.links C n

/-- The materialized edge list is in sync with the `dependencies` arrays
(spec section 3): for every node, its incoming-link sources are exactly its
dependency ids, up to set equality. -/
def linksMatchDeps (g : LearningGraph) : Prop :=
  ∀ n ∈ g.nodes,
    (∀ d ∈ parentsOf g.links n.id, d ∈ n.dependencies) ∧
    (∀ d ∈ n.dependencies, d ∈ parentsOf g.links n.id)

/-- The "next" unit as the spec words it (section 4.2): the first node, in
insertion order, whose freshly computed status is `Available` and which is
not already completed. -/
def specNextNode (s : Session) (selectedNodeId : String) : Option LearningNode :=
  let cur := currentGraphData s
  let newC := s.completedNodeIds ++ [selectedNodeId]
  (recomputeNodes cur newC).find? (fun n =>
    n.status == NodeStatus.AVAILABLE && !(newC.contains n.id))

/-- A `{title, description}` pair of the expansion feed
(`EXPANSION_SCHEMA` of `geminiService.ts`). -/
structure Suggestion where
  title : String
  description : String
deriving DecidableEq, Repr

/-- The caller-visible result of `expandLearningGraph`
(`geminiService.ts` lines 323-354): the parsed `newNodes` list on success,
the empty list when the generation call fails. -/
def expandLearningGraph (response : Option (List Suggestion)) : List Suggestion :=
  response.getD []

/-- Unary tag used to mint fresh ids: a run of `n` copies of one character,
so distinct tags have distinct lengths. -/
def natTag (n : Nat) : String :=
  String.mk (List.replicate n 'x')

/-- The largest length among a list of ids. -/
def maxIdLen (ids : List String) : Nat :=
  ids.foldr (fun s m => max s.length m) 0

/-- A freshly minted id for the `i`-th appended unit: the parent id plus a
suffix strictly longer than every existing id (`base` is the largest
existing id length). -/
def mintId (parentId : String) (base i : Nat) : String :=
  parentId ++ "-new-" ++ natTag (base + 1 + i)

/-- Modelled from the spec: the new unit records of the Expansion Protocol
(section 4.3). The append step is absent from `src/` — `App.tsx` never calls
`expandLearningGraph` — so the records are built from the spec's words:
each unit gets a freshly minted id derived from the parent id, dependencies
exactly `[parentId]`, and initial status `Available`. -/
def expansionNodesAux (parentId : String) (base : Nat) : Nat → List Suggestion → List LearningNode
  | _, [] => []
  | i, sg :: rest =>
    LearningNode.mk (mintId parentId base i) sg.title sg.description
      [parentId] .AVAILABLE none :: expansionNodesAux parentId base (i + 1) rest

/-- Modelled from the spec: the full list of new unit records appended for
one expansion of `parentId`. -/
def expansionNodes (g : LearningGraph) (parentId : String) (suggs : List Suggestion) : List LearningNode :=
  expansionNodesAux parentId (maxIdLen (g.nodes.map LearningNode.id)) 0 suggs

/-- Modelled from the spec: the all-or-nothing append of the Expansion
Protocol (section 4.3), absent from `src/`. Zero suggestions (the value the
fetch step returns on failure) yield `none` — the graph untouched and the
caller informed — otherwise every new unit and its `(parentId → newId)`
edge are appended in one step. -/
def applyExpansion (g : LearningGraph) (parentId : String) (suggs : List Suggestion) : Option LearningGraph :=
  if suggs.isEmpty then none
  else
    let newNodes := expansionNodes g parentId suggs
    some (LearningGraph.mk (g.nodes ++ newNodes)
      (g.links ++ newNodes.map (fun n => LearningLink.mk parentId n.id))
      g.glossary)

/-! Concrete fixtures used by witnesses and counterexamples. -/

/-- A bare node with the given id, dependency list and status. -/
def simpleNode (i : String) (deps : List String) (st : NodeStatus) : LearningNode :=
  LearningNode.mk i "" "" deps st none

/-- Scenario A graph of the spec (section 8): units `1: deps=[]`,
`2: deps=[1]`, `3: deps=[1]`, `4: deps=[2,3]`, statuses resolved for an
empty completed set. -/
def gA : LearningGraph :=
  LearningGraph.mk
    [simpleNode "1" [] .AVAILABLE, simpleNode "2" ["1"] .LOCKED,
     simpleNode "3" ["1"] .LOCKED, simpleNode "4" ["2", "3"] .LOCKED]
    [⟨"1", "2"⟩, ⟨"1", "3"⟩, ⟨"2", "4"⟩, ⟨"3", "4"⟩]
    []

/-- A session holding the Scenario A graph with nothing completed. -/
def sA : Session := ⟨gA, [], none⟩

/-- A resolved graph in which unit `a` is already available while unit `b`
is still locked behind the available unit `x`. -/
def gNext : LearningGraph :=
  LearningGraph.mk
    [simpleNode "a" [] .AVAILABLE, simpleNode "x" [] .AVAILABLE,
     simpleNode "b" ["x"] .LOCKED]
    [⟨"x", "b"⟩]
    []

/-- A session holding `gNext` with nothing completed. -/
def sNext : Session := ⟨gNext, [], none⟩

/-- Two root units with empty dependency lists, as generated
(status `LOCKED` before bootstrap, `geminiService.ts` line 306). -/
def nodesFlat : List LearningNode :=
  [simpleNode "1" [] .LOCKED, simpleNode "2" [] .LOCKED]

/-- Scenario D root graph: milestone `M` and a root unit `N` depending
solely on `M`. -/
def rootD : LearningGraph :=
  LearningGraph.mk
    [simpleNode "M" [] .LOCKED, simpleNode "N" ["M"] .LOCKED]
    [⟨"M", "N"⟩]
    []

/-- Scenario D generated sub-graph: `s1: deps=[]`, `s2: deps=[s1]`,
`s3: deps=[s2]`. -/
def subD : LearningGraph :=
  LearningGraph.mk
    [simpleNode "s1" [] .LOCKED, simpleNode "s2" ["s1"] .LOCKED,
     simpleNode "s3" ["s2"] .LOCKED]
    [⟨"s1", "s2"⟩, ⟨"s2", "s3"⟩]
    []

/-- Scenario D trace, step 0: the deep-study session after "Start Learning". -/
def sD0 : Session := startLearning ⟨rootD, [], none⟩

/-- Scenario D trace, step 1: drill into `M`, materializing its sub-graph. -/
def sD1 : Session := materializeSubGraph sD0 "M" subD

/-- Scenario D trace, step 2: complete the first sub-unit. -/
def sD2 : Session := handleModuleComplete sD1 "M-sub-s1"

/-- Scenario D trace, step 3: complete the second sub-unit. -/
def sD3 : Session := handleModuleComplete sD2 "M-sub-s2"

/-- Scenario D trace, step 4: complete the last sub-unit, triggering the
roll-up of `M`. -/
def sD4 : Session := handleModuleComplete sD3 "M-sub-s3"

/-- Two expansion suggestions, as in Scenario B of the spec. -/
def suggsB : List Suggestion := [⟨"A", ""⟩, ⟨"B", ""⟩]

end CogniMap

namespace CogniMap

theorem LearningNode.id_withStatus (n : LearningNode) (st : NodeStatus) :
    (n.withStatus st).id = n.id := by
  cases n; rfl

theorem LearningNode.status_withStatus (n : LearningNode) (st : NodeStatus) :
    (n.withStatus st).status = st := by
  cases n; rfl

theorem LearningNode.deps_withStatus (n : LearningNode) (st : NodeStatus) :
    (n.withStatus st).dependencies = n.dependencies := by
  cases n; rfl

theorem LearningNode.withStatus_self (n : LearningNode) :
    n.withStatus n.status = n := by
  cases n; rfl

theorem LearningNode.withStatus_withStatus (n : LearningNode) (a b : NodeStatus) :
    (n.withStatus a).withStatus b = n.withStatus b := by
  cases n; rfl

theorem LearningGraph.links_withNodes (g : LearningGraph) (ns : List LearningNode) :
    (g.withNodes ns).links = g.links := by
  cases g; rfl

theorem LearningGraph.nodes_withNodes (g : LearningGraph) (ns : List LearningNode) :
    (g.withNodes ns).nodes = ns := by
  cases g; rfl

theorem LearningGraph.withNodes_self (g : LearningGraph) :
    g.withNodes g.nodes = g := by
  cases g; rfl

theorem contains_true_iff (C : List String) (x : String) :
    C.contains x = true ↔ x ∈ C := List.elem_iff

theorem parentsMet_true_iff (links : List LearningLink) (C : List String) (nid : String) :
    parentsMet links C nid = true ↔ ∀ p ∈ parentsOf links nid, p ∈ C := by
  simp [parentsMet, List.all_eq_true, List.elem_iff]

theorem resolveNode_status_eq (links : List LearningLink) (C : List String) (n : LearningNode) :
    (resolveNode links C n).status =
      if n.id ∈ C then NodeStatus.COMPLETED
      else if parentsMet links C n.id then NodeStatus.AVAILABLE
      else n.status := by
  unfold resolveNode
  by_cases h1 : n.id ∈ C
  · simp [h1, LearningNode.status_withStatus]
  · by_cases h2 : parentsMet links C n.id = true
    · simp [h1, h2, LearningNode.status_withStatus]
    · simp [h1, h2]

theorem resolveNode_id (links : List LearningLink) (C : List String) (n : LearningNode) :
    (resolveNode links C n).id = n.id := by
  unfold resolveNode
  by_cases h1 : n.id ∈ C
  · simp [h1, LearningNode.id_withStatus]
  · by_cases h2 : parentsMet links C n.id = true
    · simp [h1, h2, LearningNode.id_withStatus]
    · simp [h1, h2]

theorem resolveNode_deps (links : List LearningLink) (C : List String) (n : LearningNode) :
    (resolveNode links C n).dependencies = n.dependencies := by
  unfold resolveNode
  by_cases h1 : n.id ∈ C
  · simp [h1, LearningNode.deps_withStatus]
  · by_cases h2 : parentsMet links C n.id = true
    · simp [h1, h2, LearningNode.deps_withStatus]
    · simp [h1, h2]

theorem parentsMet_congr (links : List LearningLink) {C Cp : List String}
    (h : ∀ x, Cp.contains x = C.contains x) (nid : String) :
    parentsMet links Cp nid = parentsMet links C nid := by
  unfold parentsMet
  congr 1
  funext p
  exact h p

theorem resolveNode_congr (links : List LearningLink) {C Cp : List String}
    (h : ∀ x, Cp.contains x = C.contains x) (n : LearningNode) :
    resolveNode links Cp n = resolveNode links C n := by
  unfold resolveNode
  rw [h n.id, parentsMet_congr links h n.id]

theorem resolveNode_idem (links : List LearningLink) (C : List String) (n : LearningNode) :
    resolveNode links C (resolveNode links C n) = resolveNode links C n := by
  unfold resolveNode
  by_cases h1 : n.id ∈ C
  · simp [h1, LearningNode.id_withStatus, LearningNode.withStatus_withStatus]
  · by_cases h2 : parentsMet links C n.id = true
    · simp [h1, h2, LearningNode.id_withStatus, LearningNode.withStatus_withStatus]
    · simp [h1, h2]

theorem contains_append_of_mem (C : List String) (sel x : String) (h : sel ∈ C) :
    (C ++ [sel]).contains x = C.contains x := by
  by_cases hx : x ∈ C
  · have h1 : (C ++ [sel]).contains x = true := by simp [hx]
    have h2 : C.contains x = true := by simp [hx]
    rw [h1, h2]
  · have hxs : x ≠ sel := fun he => hx (he ▸ h)
    have h1 : (C ++ [sel]).contains x = false := by simp [List.mem_append, hx, hxs]
    have h2 : C.contains x = false := by simp [hx]
    rw [h1, h2]

theorem contains_append_of_ne (C : List String) (sel x : String) (h : x ≠ sel) :
    (C ++ [sel]).contains x = C.contains x := by
  by_cases hx : x ∈ C
  · have h1 : (C ++ [sel]).contains x = true := by simp [hx]
    have h2 : C.contains x = true := by simp [hx]
    rw [h1, h2]
  · have h1 : (C ++ [sel]).contains x = false := by simp [List.mem_append, hx, h]
    have h2 : C.contains x = false := by simp [hx]
    rw [h1, h2]

theorem handleModuleComplete_root_eq (s : Session) (sel : String)
    (h : s.currentSubGraphId = none) :
    handleModuleComplete s sel =
      { s with
        completedNodeIds := s.completedNodeIds ++ [sel],
        graphData := s.graphData.withNodes
          (recomputeNodes s.graphData (s.completedNodeIds ++ [sel])) } := by
  unfold handleModuleComplete currentGraphData
  rw [h]

theorem handleModuleComplete_completed_extends (s : Session) (sel : String) :
    ∃ tail, (handleModuleComplete s sel).completedNodeIds = s.completedNodeIds ++ tail := by
  unfold handleModuleComplete
  rcases h : s.currentSubGraphId with _ | pid
  · exact ⟨[sel], rfl⟩
  · dsimp only
    split
    · exact ⟨[sel] ++ [pid], List.append_assoc _ _ _⟩
    · exact ⟨[sel], rfl⟩

end CogniMap

namespace CogniMap

/-- C2: after a completion event on a status-consistent graph whose edge
list matches the dependency arrays, every recomputed status satisfies the
spec's contract: `Completed` iff the id is in the new completed set; for a
not-completed unit with dependencies, `Available` iff every dependency is
completed and `Locked` iff some dependency is not. -/
theorem C2_completion_status_contract
    (g : LearningGraph) (C : List String) (sel : String)
    (hcons : statusConsistent g C) (hsync : linksMatchDeps g) :
    ∀ n ∈ g.nodes,
      ((resolveNode g.links (C ++ [sel]) n).status = NodeStatus.COMPLETED ↔
          n.id ∈ C ++ [sel]) ∧
      (n.id ∉ C ++ [sel] → n.dependencies ≠ [] →
        (((resolveNode g.links (C ++ [sel]) n).status = NodeStatus.AVAILABLE ↔
            ∀ d ∈ n.dependencies, d ∈ C ++ [sel]) ∧
         ((resolveNode g.links (C ++ [sel]) n).status = NodeStatus.LOCKED ↔
            ∃ d ∈ n.dependencies, d ∉ C ++ [sel]))) := by
  intro n hn
  have hrs := resolveNode_status_eq g.links (C ++ [sel]) n
  have hsync1 := (hsync n hn).1
  have hsync2 := (hsync n hn).2
  by_cases h1 : n.id ∈ C ++ [sel]
  · rw [if_pos h1] at hrs
    exact ⟨by rw [hrs]; exact ⟨fun _ => h1, fun _ => rfl⟩,
           fun hn1 => absurd h1 hn1⟩
  · rw [if_neg h1] at hrs
    by_cases h2 : parentsMet g.links (C ++ [sel]) n.id = true
    · rw [if_pos h2] at hrs
      refine ⟨by rw [hrs]; simp [h1], fun _ _ => ⟨?_, ?_⟩⟩
      · rw [hrs]
        refine ⟨fun _ d hd => ?_, fun _ => rfl⟩
        exact (parentsMet_true_iff _ _ _).mp h2 d (hsync2 d hd)
      · rw [hrs]
        constructor
        · intro hfalse; cases hfalse
        · rintro ⟨d, hd, hdnc⟩
          exact absurd ((parentsMet_true_iff _ _ _).mp h2 d (hsync2 d hd)) hdnc
    · rw [if_neg h2] at hrs
      have hCn : n.id ∉ C := fun hc => h1 (List.mem_append.mpr (Or.inl hc))
      have hpmC : ¬ parentsMet g.links C n.id = true := by
        intro hp
        apply h2
        rw [parentsMet_true_iff] at hp ⊢
        exact fun p hpp => List.mem_append.mpr (Or.inl (hp p hpp))
      have hold : n.status = NodeStatus.LOCKED := by
        rw [hcons n hn]
        unfold specResolveStatus
        rw [if_neg (fun hc => hCn ((contains_true_iff C n.id).mp hc)),
            if_neg hpmC]
      rw [hold] at hrs
      refine ⟨by rw [hrs]; simp [h1], fun _ _ => ⟨?_, ?_⟩⟩
      · rw [hrs]
        constructor
        · intro hfalse; cases hfalse
        · intro hall
          exfalso
          apply h2
          rw [parentsMet_true_iff]
          exact fun p hpp => hall p (hsync1 p hpp)
      · rw [hrs]
        refine ⟨fun _ => ?_, fun _ => rfl⟩
        rw [parentsMet_true_iff] at h2
        push_neg at h2
        obtain ⟨p, hpp, hpn⟩ := h2
        exact ⟨p, hsync1 p hpp, hpn⟩

/-- C2 witness: the contract instantiated on the Scenario A graph with an
empty completed set and the completion of unit 1. -/
theorem C2_completion_status_contract_witness :
    statusConsistent gA [] ∧ linksMatchDeps gA ∧
    (∀ n ∈ gA.nodes,
      ((resolveNode gA.links ([] ++ ["1"]) n).status = NodeStatus.COMPLETED ↔
          n.id ∈ [] ++ ["1"]) ∧
      (n.id ∉ [] ++ ["1"] → n.dependencies ≠ [] →
        (((resolveNode gA.links ([] ++ ["1"]) n).status = NodeStatus.AVAILABLE ↔
            ∀ d ∈ n.dependencies, d ∈ [] ++ ["1"]) ∧
         ((resolveNode gA.links ([] ++ ["1"]) n).status = NodeStatus.LOCKED ↔
            ∃ d ∈ n.dependencies, d ∉ [] ++ ["1"])))) :=
  ⟨by unfold statusConsistent; decide, by unfold linksMatchDeps; decide,
   C2_completion_status_contract gA [] "1" (by unfold statusConsistent; decide)
     (by unfold linksMatchDeps; decide)⟩

end CogniMap

namespace CogniMap

/-- C9: the status recomputation of a completion event never demotes a
node — a node whose status was `Available` or `Completed` before the event
is never `Locked` after it. -/
theorem C9_no_demotion (s : Session) (sel : String) (n : LearningNode)
    (h : n.status = NodeStatus.AVAILABLE ∨ n.status = NodeStatus.COMPLETED) :
    (resolveNode (currentGraphData s).links (s.completedNodeIds ++ [sel]) n).status ≠
      NodeStatus.LOCKED := by
  rw [resolveNode_status_eq]
  by_cases h1 : n.id ∈ s.completedNodeIds ++ [sel]
  · simp [h1]
  · by_cases h2 : parentsMet (currentGraphData s).links (s.completedNodeIds ++ [sel]) n.id = true
    · simp [h1, h2]
    · rcases h with h | h <;> simp [h1, h2, h]

/-- C9 witness: the already-available unit 1 of Scenario A is not demoted
by the completion of unit 2. -/
theorem C9_no_demotion_witness :
    ((simpleNode "1" [] NodeStatus.AVAILABLE).status = NodeStatus.AVAILABLE ∨
     (simpleNode "1" [] NodeStatus.AVAILABLE).status = NodeStatus.COMPLETED) ∧
    (resolveNode (currentGraphData sA).links (sA.completedNodeIds ++ ["2"])
        (simpleNode "1" [] NodeStatus.AVAILABLE)).status ≠ NodeStatus.LOCKED :=
  ⟨Or.inl (by decide),
   C9_no_demotion sA "2" (simpleNode "1" [] NodeStatus.AVAILABLE) (Or.inl (by decide))⟩

/-- C8: the completed-set grows monotonically — every previously completed
id survives a completion event, the list length never decreases, a unit in
the completed set is recomputed as `COMPLETED`, and sub-graph
materialization, entry and exit leave the completed list untouched. -/
theorem C8_completed_set_monotone (s : Session) (sel : String) :
    (∀ x ∈ s.completedNodeIds, x ∈ (handleModuleComplete s sel).completedNodeIds) ∧
    s.completedNodeIds.length ≤ (handleModuleComplete s sel).completedNodeIds.length ∧
    (∀ n : LearningNode, n.id ∈ s.completedNodeIds →
      (resolveNode (currentGraphData s).links (s.completedNodeIds ++ [sel]) n).status =
        NodeStatus.COMPLETED) ∧
    (∀ nodeId g, (materializeSubGraph s nodeId g).completedNodeIds = s.completedNodeIds) ∧
    (∀ nodeId, (enterSubGraph s nodeId).completedNodeIds = s.completedNodeIds) ∧
    (exitSubGraph s).completedNodeIds = s.completedNodeIds := by
  obtain ⟨tail, htail⟩ := handleModuleComplete_completed_extends s sel
  refine ⟨?_, ?_, ?_, fun _ _ => rfl, fun _ => rfl, rfl⟩
  · intro x hx
    rw [htail]
    exact List.mem_append.mpr (Or.inl hx)
  · rw [htail, List.length_append]
    exact Nat.le_add_right _ _
  · intro n hn
    rw [resolveNode_status_eq, if_pos (List.mem_append.mpr (Or.inl hn))]

/-- C8 witness: instantiated on the Scenario D session after the first
sub-unit completion, completing the second sub-unit. -/
theorem C8_completed_set_monotone_witness :
    ("M-sub-s1" ∈ sD2.completedNodeIds ∧
      "M-sub-s1" ∈ (handleModuleComplete sD2 "M-sub-s2").completedNodeIds) ∧
    sD2.completedNodeIds.length ≤
      (handleModuleComplete sD2 "M-sub-s2").completedNodeIds.length :=
  ⟨⟨by decide,
    (C8_completed_set_monotone sD2 "M-sub-s2").1 "M-sub-s1" (by decide)⟩,
   (C8_completed_set_monotone sD2 "M-sub-s2").2.1⟩

/-- C1 (code bug): completing the last unit of milestone `M`'s sub-graph
adds `M` to the session's completed set, yet the root graph's statuses are
not re-resolved — the root unit `N`, whose sole dependency is `M`, is still
`LOCKED` afterwards instead of transitioning to `Available`. -/
theorem C1_rollup_leaves_root_locked :
    ((currentGraphData sD4).nodes.all
        (fun n => n.status == NodeStatus.COMPLETED)) = true ∧
    sD4.completedNodeIds.contains "M" = true ∧
    (statusOf rootD "N").isSome = true ∧
    ((sD4.graphData.nodes.find? (fun n => n.id == "N")).map
        LearningNode.dependencies) = some ["M"] ∧
    statusOf sD4.graphData "N" = some NodeStatus.LOCKED := by
  refine ⟨by decide, by decide, by decide, by decide, by decide⟩

/-- C10: a reachable deep-study state — root graph of one milestone and one
dependent unit, a three-unit sub-graph completed unit by unit — in which
the completed list holds sub-graph ids and the milestone id together, its
size strictly exceeds the root node count, and the sidebar "Remaining"
count is negative. -/
theorem C10_remaining_goes_negative :
    sD4.completedNodeIds = ["M-sub-s1", "M-sub-s2", "M-sub-s3", "M"] ∧
    sD4.graphData.nodes.length = 2 ∧
    sD4.graphData.nodes.length < sD4.completedNodeIds.length ∧
    remainingCount sD4 < 0 := by
  refine ⟨by decide, by decide, by decide, by decide⟩

end CogniMap

namespace CogniMap

theorem LearningGraph.withNodes_withNodes (g : LearningGraph) (a b : List LearningNode) :
    (g.withNodes a).withNodes b = g.withNodes b := by
  cases g; rfl

theorem find?_ext {α : Type} (l : List α) {p q : α → Bool} (h : ∀ a, p a = q a) :
    l.find? p = l.find? q :=
  congrArg (fun r => l.find? r) (funext h)

theorem all_ext_mem {α : Type} {l : List α} {p q : α → Bool} (h : ∀ a ∈ l, p a = q a) :
    l.all p = l.all q := by
  rw [Bool.eq_iff_iff, List.all_eq_true, List.all_eq_true]
  exact ⟨fun hall a ha => (h a ha) ▸ hall a ha, fun hall a ha => (h a ha) ▸ hall a ha⟩

theorem mem_parentsOf {links : List LearningLink} {nid p : String}
    (h : p ∈ parentsOf links nid) :
    ∃ l ∈ links, l.source = p := by
  unfold parentsOf at h
  obtain ⟨l, hl, rfl⟩ := List.mem_map.mp h
  exact ⟨l, (List.mem_filter.mp hl).1, rfl⟩

theorem recompute_stable (g : LearningGraph) (C : List String) (sel : String)
    (hsel : sel ∈ C) :
    recomputeNodes (g.withNodes (recomputeNodes g C)) (C ++ [sel]) = recomputeNodes g C := by
  unfold recomputeNodes
  rw [LearningGraph.nodes_withNodes, LearningGraph.links_withNodes, List.map_map]
  apply List.map_congr_left
  intro n _
  show resolveNode g.links (C ++ [sel]) (resolveNode g.links C n) = resolveNode g.links C n
  rw [resolveNode_congr g.links (fun x => contains_append_of_mem C sel x hsel)]
  exact resolveNode_idem g.links C n

theorem resolveNode_consistent_fixed (links : List LearningLink) (C : List String)
    (n : LearningNode) (h : n.status = specResolveStatus links C n) :
    resolveNode links C n = n := by
  unfold specResolveStatus at h
  unfold resolveNode
  by_cases h1 : n.id ∈ C
  · simp [h1] at h ⊢
    rw [← h]
    exact LearningNode.withStatus_self n
  · by_cases h2 : parentsMet links C n.id = true
    · simp [h1, h2] at h ⊢
      rw [← h]
      exact LearningNode.withStatus_self n
    · simp [h1, h2]

end CogniMap

namespace CogniMap

/-- C3 counterexample: dispatching "complete unit 1" twice on the Scenario A
session stores the id twice, so the resulting session state differs from a
single dispatch. -/
theorem C3_counterexample_duplicate_id :
    (handleModuleComplete (handleModuleComplete sA "1") "1").completedNodeIds = ["1", "1"] ∧
    (handleModuleComplete sA "1").completedNodeIds = ["1"] ∧
    (handleModuleComplete (handleModuleComplete sA "1") "1").completedNodeIds ≠
      (handleModuleComplete sA "1").completedNodeIds := by
  refine ⟨by decide, by decide, by decide⟩

/-- C3 amended: re-dispatching a completion in the root view leaves the
graph, every node status and completed-set membership unchanged, but
appends the id to the stored completed list a second time. -/
theorem C3_amended_idempotent_up_to_duplicate (s : Session) (sel : String)
    (hroot : s.currentSubGraphId = none) :
    (handleModuleComplete (handleModuleComplete s sel) sel).graphData =
      (handleModuleComplete s sel).graphData ∧
    (handleModuleComplete (handleModuleComplete s sel) sel).completedNodeIds =
      (handleModuleComplete s sel).completedNodeIds ++ [sel] ∧
    (∀ x, x ∈ (handleModuleComplete (handleModuleComplete s sel) sel).completedNodeIds ↔
          x ∈ (handleModuleComplete s sel).completedNodeIds) := by
  have h1 := handleModuleComplete_root_eq s sel hroot
  have hroot1 : (handleModuleComplete s sel).currentSubGraphId = none := by
    rw [h1]; exact hroot
  have h2 := handleModuleComplete_root_eq (handleModuleComplete s sel) sel hroot1
  have hsel : sel ∈ (handleModuleComplete s sel).completedNodeIds := by
    rw [h1]
    exact List.mem_append.mpr (Or.inr (List.mem_singleton.mpr rfl))
  refine ⟨?_, by rw [h2], ?_⟩
  · rw [h2, h1]
    dsimp only
    rw [recompute_stable s.graphData (s.completedNodeIds ++ [sel]) sel
          (by rw [h1] at hsel; exact hsel)]
    exact LearningGraph.withNodes_withNodes _ _ _
  · intro x
    rw [h2]
    dsimp only
    constructor
    · intro hx
      rcases List.mem_append.mp hx with hx | hx
      · exact hx
      · rw [List.mem_singleton.mp hx]
        exact hsel
    · exact fun hx => List.mem_append.mpr (Or.inl hx)

/-- C3 amended witness: the amended statement instantiated on the
Scenario A session completing unit 1 twice. -/
theorem C3_amended_idempotent_up_to_duplicate_witness :
    sA.currentSubGraphId = none ∧
    ((handleModuleComplete (handleModuleComplete sA "1") "1").graphData =
        (handleModuleComplete sA "1").graphData ∧
     (handleModuleComplete (handleModuleComplete sA "1") "1").completedNodeIds =
        (handleModuleComplete sA "1").completedNodeIds ++ ["1"] ∧
     (∀ x, x ∈ (handleModuleComplete (handleModuleComplete sA "1") "1").completedNodeIds ↔
           x ∈ (handleModuleComplete sA "1").completedNodeIds)) :=
  ⟨rfl, C3_amended_idempotent_up_to_duplicate sA "1" rfl⟩

/-- C4 counterexample: on `sNext`, completing `x` makes the code suggest
the newly unlocked `b`, not the first available node `a` required by the
claim. -/
theorem C4_counterexample_prefers_newly_unlocked :
    ((nextNodeToOpen sNext "x").map LearningNode.id = some "b") ∧
    ((specNextNode sNext "x").map LearningNode.id = some "a") ∧
    (nextNodeToOpen sNext "x").map LearningNode.id ≠
      (specNextNode sNext "x").map LearningNode.id := by
  refine ⟨by decide, by decide, by decide⟩

/-- C4 amended: the suggested next unit is the first node, in insertion
order, that transitions from `Locked` to `Available` in this event; only
when no node is newly unlocked is it the first recomputed node that is
`Available` and not completed; none if neither exists. -/
theorem C4_amended_next_node (s : Session) (sel : String) :
    nextNodeToOpen s sel =
      match (currentGraphData s).nodes.find? (fun n =>
          (n.status == NodeStatus.LOCKED) &&
          ((resolveNode (currentGraphData s).links (s.completedNodeIds ++ [sel]) n).status
            == NodeStatus.AVAILABLE)) with
      | some n => some n
      | none =>
        (recomputeNodes (currentGraphData s) (s.completedNodeIds ++ [sel])).find? (fun n =>
          n.status == NodeStatus.AVAILABLE &&
          !((s.completedNodeIds ++ [sel]).contains n.id)) := by
  unfold nextNodeToOpen
  have hpred : ∀ n : LearningNode,
      (!((s.completedNodeIds ++ [sel]).contains n.id) &&
        parentsMet (currentGraphData s).links (s.completedNodeIds ++ [sel]) n.id &&
        (n.status == NodeStatus.LOCKED)) =
      ((n.status == NodeStatus.LOCKED) &&
        ((resolveNode (currentGraphData s).links (s.completedNodeIds ++ [sel]) n).status
          == NodeStatus.AVAILABLE)) := by
    intro n
    rw [resolveNode_status_eq]
    by_cases h1 : n.id ∈ s.completedNodeIds ++ [sel]
    · simp [h1]
    · by_cases h2 : parentsMet (currentGraphData s).links (s.completedNodeIds ++ [sel]) n.id = true
      · simp [h1, h2, Bool.and_comm]
      · by_cases h3 : n.status = NodeStatus.LOCKED
        · simp [h1, h2, h3]
        · simp [h1, h2, h3]
  dsimp only
  rw [find?_ext (currentGraphData s).nodes hpred]

end CogniMap

namespace CogniMap

theorem mapIdx_index_free {α β : Type} (f : α → β) :
    ∀ (l : List α) (g : Nat → α → β), (∀ i a, g i a = f a) → l.mapIdx g = l.map f := by
  intro l
  induction l with
  | nil => intro g h; rfl
  | cons a t ih =>
    intro g h
    rw [List.mapIdx_cons, h 0 a, List.map_cons]
    congr 1
    exact ih _ (fun i a => h (i + 1) a)

/-- C6 counterexample: both units of `nodesFlat` have empty dependency
lists, yet after graph-creation bootstrap the second unit's status is
`LOCKED`, not `Available`. -/
theorem C6_counterexample_second_root_locked :
    (nodesFlat.all (fun n => n.dependencies.isEmpty)) = true ∧
    ((bootstrapStatuses nodesFlat).find? (fun n => n.id == "2")).map LearningNode.status
      = some NodeStatus.LOCKED := by
  refine ⟨by decide, by decide⟩

/-- C6 amended: at graph creation only the node at insertion position 0 is
made `Available`; every later node, dependency lists notwithstanding, is
made `Locked`. -/
theorem C6_amended_bootstrap_first_only :
    bootstrapStatuses [] = [] ∧
    ∀ (n : LearningNode) (rest : List LearningNode),
      bootstrapStatuses (n :: rest) =
        n.withStatus NodeStatus.AVAILABLE ::
          rest.map (fun m => m.withStatus NodeStatus.LOCKED) := by
  refine ⟨rfl, fun n rest => ?_⟩
  unfold bootstrapStatuses
  rw [List.mapIdx_cons]
  congr 1
  exact mapIdx_index_free _ rest _ (fun i a => rfl)

/-- C7 counterexample: completing the nonexistent id 99 on the Scenario A
session is not rejected — the id is stored in the completed list, so the
session state changes. -/
theorem C7_counterexample_nonexistent_id_mutates :
    (gA.nodes.all (fun n => !(n.id == "99"))) = true ∧
    (handleModuleComplete sA "99").completedNodeIds = ["99"] ∧
    (handleModuleComplete sA "99").completedNodeIds ≠ sA.completedNodeIds := by
  refine ⟨by decide, by decide, by decide⟩

/-- C7 amended: completing an id absent from a status-consistent root graph
(and absent from the edge sources) is not rejected: the id is appended to
the stored completed list, while the graph — every node and status — is
left exactly as before. -/
theorem C7_amended_nonexistent_id (s : Session) (sel : String)
    (hroot : s.currentSubGraphId = none)
    (hnode : ∀ n ∈ s.graphData.nodes, n.id ≠ sel)
    (hlink : ∀ l ∈ s.graphData.links, l.source ≠ sel)
    (hcons : statusConsistent s.graphData s.completedNodeIds) :
    (handleModuleComplete s sel).graphData = s.graphData ∧
    (handleModuleComplete s sel).completedNodeIds = s.completedNodeIds ++ [sel] := by
  have h1 := handleModuleComplete_root_eq s sel hroot
  refine ⟨?_, by rw [h1]⟩
  rw [h1]
  dsimp only
  have hmap : recomputeNodes s.graphData (s.completedNodeIds ++ [sel]) = s.graphData.nodes := by
    unfold recomputeNodes
    have hid : ∀ n ∈ s.graphData.nodes,
        resolveNode s.graphData.links (s.completedNodeIds ++ [sel]) n = n := by
      intro n hn
      have hcontains : (s.completedNodeIds ++ [sel]).contains n.id =
          s.completedNodeIds.contains n.id :=
        contains_append_of_ne _ _ _ (hnode n hn)
      have hpm : parentsMet s.graphData.links (s.completedNodeIds ++ [sel]) n.id =
          parentsMet s.graphData.links s.completedNodeIds n.id := by
        unfold parentsMet
        apply all_ext_mem
        intro p hp
        obtain ⟨l, hl, rfl⟩ := mem_parentsOf hp
        exact contains_append_of_ne _ _ _ (hlink l hl)
      have hstep : resolveNode s.graphData.links (s.completedNodeIds ++ [sel]) n =
          resolveNode s.graphData.links s.completedNodeIds n := by
        unfold resolveNode
        rw [hcontains, hpm]
      rw [hstep]
      exact resolveNode_consistent_fixed _ _ _ (hcons n hn)
    calc s.graphData.nodes.map (resolveNode s.graphData.links (s.completedNodeIds ++ [sel]))
        = s.graphData.nodes.map id := List.map_congr_left hid
      _ = s.graphData.nodes := List.map_id _
  rw [hmap]
  exact LearningGraph.withNodes_self _

/-- C7 amended witness: the amended statement instantiated on the
Scenario A session and the nonexistent id 99. -/
theorem C7_amended_nonexistent_id_witness :
    (sA.currentSubGraphId = none ∧
     (∀ n ∈ sA.graphData.nodes, n.id ≠ "99") ∧
     (∀ l ∈ sA.graphData.links, l.source ≠ "99") ∧
     statusConsistent sA.graphData sA.completedNodeIds) ∧
    ((handleModuleComplete sA "99").graphData = sA.graphData ∧
     (handleModuleComplete sA "99").completedNodeIds = sA.completedNodeIds ++ ["99"]) :=
  ⟨⟨rfl, by decide, by decide, by unfold statusConsistent; decide⟩,
   C7_amended_nonexistent_id sA "99" rfl (by decide) (by decide)
     (by unfold statusConsistent; decide)⟩

end CogniMap

namespace CogniMap

theorem natTag_length (n : Nat) : (natTag n).length = n := by
  unfold natTag
  show (List.replicate n 'x').length = n
  exact List.length_replicate _ _

theorem mintId_length (pid : String) (base i : Nat) :
    (mintId pid base i).length = pid.length + 5 + (base + 1 + i) := by
  unfold mintId
  have h5 : ("-new-" : String).length = 5 := rfl
  rw [String.length_append, String.length_append, natTag_length, h5]

theorem le_maxIdLen : ∀ (ids : List String), ∀ s ∈ ids, s.length ≤ maxIdLen ids := by
  intro ids
  induction ids with
  | nil => intro s hs; cases hs
  | cons a t ih =>
    intro s hs
    rcases hs with _ | hs
    · exact le_max_left _ _
    · exact le_trans (ih s (by assumption)) (le_max_right _ _)

theorem ne_of_length_ne {s t : String} (h : s.length ≠ t.length) : s ≠ t :=
  fun he => h (he ▸ rfl)

theorem mintId_ne_of_ne (pid : String) (base : Nat) {i j : Nat} (h : i ≠ j) :
    mintId pid base i ≠ mintId pid base j := by
  apply ne_of_length_ne
  rw [mintId_length, mintId_length]
  omega

theorem expansionNodesAux_length (pid : String) (base : Nat) :
    ∀ (suggs : List Suggestion) (i : Nat),
      (expansionNodesAux pid base i suggs).length = suggs.length := by
  intro suggs
  induction suggs with
  | nil => intro i; rfl
  | cons sg rest ih =>
    intro i
    unfold expansionNodesAux
    rw [List.length_cons, ih (i + 1), List.length_cons]

theorem expansionNodesAux_mem (pid : String) (base : Nat) :
    ∀ (suggs : List Suggestion) (i : Nat), ∀ n ∈ expansionNodesAux pid base i suggs,
      n.dependencies = [pid] ∧ n.status = NodeStatus.AVAILABLE ∧
      ∃ j, i ≤ j ∧ j < i + suggs.length ∧ n.id = mintId pid base j := by
  intro suggs
  induction suggs with
  | nil => intro i n hn; cases hn
  | cons sg rest ih =>
    intro i n hn
    unfold expansionNodesAux at hn
    rcases hn with _ | hn
    · exact ⟨rfl, rfl, i, le_refl i, by simp, rfl⟩
    · obtain ⟨hd, hst, j, hij, hjlt, hid⟩ := ih (i + 1) n (by assumption)
      exact ⟨hd, hst, j, by omega, by simp at hjlt ⊢; omega, hid⟩

theorem expansionNodesAux_pairwise (pid : String) (base : Nat) :
    ∀ (suggs : List Suggestion) (i : Nat),
      (expansionNodesAux pid base i suggs).Pairwise (fun a b => a.id ≠ b.id) := by
  intro suggs
  induction suggs with
  | nil => intro i; exact List.Pairwise.nil
  | cons sg rest ih =>
    intro i
    unfold expansionNodesAux
    refine List.Pairwise.cons ?_ (ih (i + 1))
    intro b hb
    obtain ⟨_, _, j, hij, _, hid⟩ := expansionNodesAux_mem pid base rest (i + 1) b hb
    show (LearningNode.mk (mintId pid base i) sg.title sg.description
        [pid] .AVAILABLE none).id ≠ b.id
    rw [hid]
    exact mintId_ne_of_ne pid base (by omega)

/-- C5 (modelled from the spec, the append step being absent from `src/`):
expansion is all-or-nothing — zero suggestions, which is also what the
fetch step hands back on failure, leave the graph unmodified and inform the
caller via `none`; a non-empty suggestion list appends exactly that many
new units, each with dependencies `[parentId]`, status `Available`, an id
fresh with respect to every existing node and pairwise distinct, together
with their `(parentId → newId)` edges. -/
theorem C5_expansion_all_or_nothing (g : LearningGraph) (pid : String) (suggs : List Suggestion) :
    (expandLearningGraph none = [] ∧ applyExpansion g pid [] = none) ∧
    (suggs ≠ [] →
      ∃ fresh : List LearningNode,
        applyExpansion g pid suggs = some (LearningGraph.mk (g.nodes ++ fresh)
          (g.links ++ fresh.map (fun n => LearningLink.mk pid n.id)) g.glossary) ∧
        fresh.length = suggs.length ∧
        (∀ n ∈ fresh, n.dependencies = [pid] ∧ n.status = NodeStatus.AVAILABLE ∧
          ∀ m ∈ g.nodes, m.id ≠ n.id) ∧
        fresh.Pairwise (fun a b => a.id ≠ b.id)) := by
  refine ⟨⟨rfl, rfl⟩, fun hne => ?_⟩
  refine ⟨expansionNodes g pid suggs, ?_, ?_, ?_, ?_⟩
  · unfold applyExpansion
    rw [if_neg (by simp [hne])]
  · exact expansionNodesAux_length pid _ suggs 0
  · intro n hn
    obtain ⟨hd, hst, j, _, _, hid⟩ :=
      expansionNodesAux_mem pid (maxIdLen (g.nodes.map LearningNode.id)) suggs 0 n hn
    refine ⟨hd, hst, fun m hm => ?_⟩
    apply ne_of_length_ne
    rw [hid, mintId_length]
    have hle : m.id.length ≤ maxIdLen (g.nodes.map LearningNode.id) :=
      le_maxIdLen _ m.id (List.mem_map_of_mem LearningNode.id hm)
    omega
  · exact expansionNodesAux_pairwise pid _ suggs 0

/-- C5 witness: the Scenario B expansion — two suggestions after the
completion of unit 1 of the Scenario A graph. -/
theorem C5_expansion_all_or_nothing_witness :
    suggsB ≠ [] ∧
    (∃ fresh : List LearningNode,
        applyExpansion gA "1" suggsB = some (LearningGraph.mk (gA.nodes ++ fresh)
          (gA.links ++ fresh.map (fun n => LearningLink.mk "1" n.id)) gA.glossary) ∧
        fresh.length = suggsB.length ∧
        (∀ n ∈ fresh, n.dependencies = ["1"] ∧ n.status = NodeStatus.AVAILABLE ∧
          ∀ m ∈ gA.nodes, m.id ≠ n.id) ∧
        fresh.Pairwise (fun a b => a.id ≠ b.id)) :=
  ⟨by decide, (C5_expansion_all_or_nothing gA "1" suggsB).2 (by decide)⟩

end CogniMap
